import Mathlib

/-!
Verification of the contact-scraper pipeline (app/api/routes.py, app/models/models.py,
app/services/scraper.py, app/services/llm.py, app/core/config.py).

The embedding is shallow: the pure data-shaping functions are translated directly;
the pipeline's external collaborators (search provider, LLM, browser automation)
are supplied as an environment record whose fields carry the values (or raised
error messages, as `Except.error`) those collaborators would produce, and the
pipeline body of `process_scraping_task` is translated statement by statement
over that environment.  Timestamps are abstracted to `Nat`.
-/

/-! ## String helpers (Python `str.strip`, `str.lower`, `in`, slicing) -/

/-- Characters removed by Python `str.strip()` at both ends, modelled with
`Char.isWhitespace`. `stripChars` drops whitespace from the front, then from
the back (via reverse). -/
def stripChars (l : List Char) : List Char :=
  ((l.dropWhile Char.isWhitespace).reverse.dropWhile Char.isWhitespace).reverse

/-- Python `v.strip()` on strings. -/
def pyStrip (s : String) : String := ⟨stripChars s.data⟩

/-- Python `s.lower()` (ASCII case folding, which is all the code relies on). -/
def pyLower (s : String) : String := ⟨s.data.map Char.toLower⟩

/-- Number of digit characters of a string; `len(re.sub(r"[^0-9]", "", v))`
in models.py. -/
def digitCount (s : String) : Nat := (s.data.filter Char.isDigit).length

/-- Python substring test `pat in l` on character lists: `pat` occurs
contiguously at some position of `l`. -/
def containsList : List Char → List Char → Bool
  | [], pat => pat.isPrefixOf ([] : List Char)
  | c :: t, pat => pat.isPrefixOf (c :: t) || containsList t pat

/-- Python substring test `pat in s` on strings. -/
def strContains (s pat : String) : Bool := containsList s.data pat.data

/-- Python slicing `s[:n]`. -/
def strTake (s : String) (n : Nat) : String := ⟨s.data.take n⟩

/-! ## models.py — ContactInfo and its field validators -/

/-- `ContactInfo` (models.py lines 13-23).  `DeptContacts` is an opaque
name-to-string mapping, modelled as an association list. -/
structure ContactInfo where
  Phone : String
  Fax : String := ""
  Email : String
  Address : String
  City : String := ""
  State : String := ""
  ZipCode : String := ""
  DeptContacts : Option (List (String × String)) := none
deriving DecidableEq

/-- `ContactInfo.validate_phone` (models.py lines 25-40): empty input stays
empty; otherwise strip, count digit characters, blank the value when the count
is outside [6, 18], and keep the stripped string otherwise. -/
def ContactInfo.validate_phone (v : String) : String :=
  if v = "" then ""
  else
    let t := stripChars v.data
    if (t.filter Char.isDigit).length < 6 ∨ 18 < (t.filter Char.isDigit).length then ""
    else ⟨t⟩

/-- Characters of the local part of the email regex
`[a-zA-Z0-9_.+-]+@[a-zA-Z0-9-]+\.[a-zA-Z0-9-.]+` (models.py line 50). -/
def isLocalChar (c : Char) : Bool :=
  c.isAlphanum || c = '_' || c = '.' || c = '+' || c = '-'

/-- Characters of the first domain label of the email regex. -/
def isDomChar (c : Char) : Bool := c.isAlphanum || c = '-'

/-- Characters of the trailing domain part of the email regex. -/
def isTailChar (c : Char) : Bool := c.isAlphanum || c = '-' || c = '.'

/-- Attempt to match the email regex at the very start of `l`, with Python's
leftmost-greedy semantics.  Each quantified class is followed by a literal
character outside that class, so greedy runs need no backtracking. -/
def matchEmailAt (l : List Char) : Option (List Char) :=
  let loc := l.takeWhile isLocalChar
  if loc = [] then none
  else
    match l.dropWhile isLocalChar with
    | [] => none
    | a :: r2 =>
      if a = '@' then
        let d := r2.takeWhile isDomChar
        if d = [] then none
        else
          match r2.dropWhile isDomChar with
          | [] => none
          | b :: r4 =>
            if b = '.' then
              let t := r4.takeWhile isTailChar
              if t = [] then none else some (loc ++ '@' :: (d ++ '.' :: t))
            else none
      else none

/-- `re.search` for the email regex: try each start position left to right and
return the first (leftmost) match. -/
def searchEmail : List Char → Option (List Char)
  | [] => none
  | c :: rest =>
    match matchEmailAt (c :: rest) with
    | some m => some m
    | none => searchEmail rest

/-- `ContactInfo.validate_email` (models.py lines 42-54): empty input stays
empty; otherwise strip, search for the first substring matching the email
regex, and return it lowercased, or the empty string when there is none. -/
def ContactInfo.validate_email (v : String) : String :=
  if v = "" then ""
  else
    match searchEmail (stripChars v.data) with
    | some m => ⟨m.map Char.toLower⟩
    | none => ""

/-- A character list is in the language of the email regex of models.py
line 50: a non-empty local part, a literal at sign, a non-empty first domain
label, a literal dot, and a non-empty domain tail. -/
def isEmailShape (m : List Char) : Prop :=
  ∃ loc d t, m = loc ++ '@' :: (d ++ '.' :: t) ∧ loc ≠ [] ∧ d ≠ [] ∧ t ≠ [] ∧
    (∀ c ∈ loc, isLocalChar c = true) ∧ (∀ c ∈ d, isDomChar c = true) ∧
    (∀ c ∈ t, isTailChar c = true)

/-! ## models.py — result and task records -/

/-- `ScrapeResult` (models.py lines 56-59). -/
structure ScrapeResult where
  poe_name : String
  official_site : String
  poe_info : Option ContactInfo
deriving DecidableEq

/-- `WebhookPayload` (models.py lines 62-65). -/
structure WebhookPayload where
  status : String
  message : String
  result : ScrapeResult
deriving DecidableEq

/-- `TaskRecord` (models.py lines 68-74), timestamps abstracted to `Nat`. -/
structure TaskRecord where
  task_id : String
  status : String
  message : Option String
  result_data : Option ScrapeResult
  created_at : Nat
  updated_at : Nat
deriving DecidableEq

/-! ## llm.py — fallback email extraction -/

/-- `LLMService.extract_fallback_email` (llm.py lines 125-164).  The LLM call
is supplied as `llm_email`: `Except.ok em` is the string found under the
`Email` key of the model's JSON reply, and `Except.error e` is an upstream
error raised after retries are exhausted.  A non-empty (stripped) reply is
assigned to `current_info.Email`; because the model sets
`validate_assignment=True` (models.py line 14), that assignment re-runs
`ContactInfo.validate_email` on the new value. -/
def extract_fallback_email (snippets_text : String) (llm_email : Except String String)
    (current_info : ContactInfo) : Except String ContactInfo :=
  if snippets_text = "" then Except.ok current_info
  else
    match llm_email with
    | Except.error e => Except.error e
    | Except.ok em =>
      let found_email := pyStrip em
      if found_email = "" then Except.ok current_info
      else Except.ok { current_info with Email := ContactInfo.validate_email found_email }

/-! ## scraper.py — link scoring and ranking -/

/-- `score_link` (scraper.py lines 250-257), the keyword-tier rank of a
candidate URL relative to the homepage. -/
def score_link (homepage_url url : String) : Nat :=
  let url_lower := pyLower url
  if strContains url_lower "contact" then 1
  else if strContains url_lower "about" then 2
  else if strContains url_lower "team" || strContains url_lower "staff" then 3
  else if strContains url_lower "location" || strContains url_lower "office" then 4
  else if url_lower = pyLower homepage_url then 5
  else 6

/-- `sorted(list(links), key=score_link)` (scraper.py line 259): Python's
`sorted` is a stable ascending sort by key, embedded as insertion sort with
the non-strict key comparison (which places an element after earlier-listed
elements of equal key, i.e. stably). -/
def rankLinks (homepage_url : String) (links : List String) : List String :=
  List.insertionSort (fun a b => score_link homepage_url a ≤ score_link homepage_url b) links

/-! ## routes.py — the pipeline -/

/-- The external collaborators of one pipeline run (routes.py lines 32-70).
`search` and `snippets` model `perform_duckduckgo_search` and
`perform_duckduckgo_snippet_search`, which catch all their exceptions
internally and so always return a value.  The remaining fields may carry a
raised error (`Except.error` with the exception's message), as their source
functions re-raise transient errors once retries are exhausted. -/
structure PipelineEnv where
  search : List String
  verify : Except String String
  harvest : Except String (List String)
  pageText : String → Except String String
  snippets : String
  extract : Except String (Option ContactInfo)
  fallback : Except String String

/-- Everything observable about one run of `process_scraping_task`:
the terminal `status`/`message`/`final_result`, plus ghost fields recording
which links were visited, the buffer handed to contact extraction, the primary
extraction result, and whether the fallback email stage ran. -/
structure PipelineOutcome where
  status : String
  message : String
  result : ScrapeResult
  visited : List String
  buffer : String
  primary : Option ContactInfo
  fallbackRan : Bool
deriving DecidableEq

/-- The source-delimited block appended per visited page
(`f"\n--- Source: ..."` at routes.py line 56). -/
def sourceBlock (link text : String) : String :=
  "\n--- Source: " ++ link ++ " ---\n" ++ text ++ "\n"

/-- The visiting loop of routes.py lines 53-56 over the (already truncated)
link list: visit pages in order, concatenating one block per page; a raised
extraction error aborts the loop.  Returns the list of links actually visited
together with either the combined text or the raised error. -/
def visitLoop (pageText : String → Except String String) :
    List String → List String × Except String String
  | [] => ([], Except.ok "")
  | link :: rest =>
    match pageText link with
    | Except.error e => ([link], Except.error e)
    | Except.ok text =>
      let r := visitLoop pageText rest
      match r.2 with
      | Except.error e => (link :: r.1, Except.error e)
      | Except.ok tail => (link :: r.1, Except.ok (sourceBlock link text ++ tail))

/-- `process_scraping_task` (routes.py lines 24-82): the stage sequence with
its `try`/`except` control flow.  A `ValueError` raised by a stage guard, or a
collaborator error, jumps to the handler, which records the message and leaves
`status = "FAILURE"`; partial progress written into `final_result`
(`official_site`) survives.  `extract_contact_info` returns `none` when handed
an empty buffer (llm.py line 67), which is modelled inline. -/
def process_scraping_task (env : PipelineEnv) (poe_name : String) : PipelineOutcome :=
  let final0 : ScrapeResult := ⟨poe_name, "Information not available", none⟩
  if env.search = [] then
    ⟨"FAILURE", "No search results found", final0, [], "", none, false⟩
  else
    match env.verify with
    | Except.error e => ⟨"FAILURE", e, final0, [], "", none, false⟩
    | Except.ok official_site =>
      if official_site = "" then
        ⟨"FAILURE", "Official site not found by LLM", final0, [], "", none, false⟩
      else
        let final1 := { final0 with official_site := official_site }
        match env.harvest with
        | Except.error e => ⟨"FAILURE", e, final1, [], "", none, false⟩
        | Except.ok links_to_visit =>
          let v := visitLoop env.pageText (links_to_visit.take 3)
          match v.2 with
          | Except.error e => ⟨"FAILURE", e, final1, v.1, "", none, false⟩
          | Except.ok combined_text =>
            let buffer :=
              if 15000 < combined_text.length then strTake combined_text 15000
              else combined_text
            let extracted := if buffer = "" then Except.ok none else env.extract
            match extracted with
            | Except.error e => ⟨"FAILURE", e, final1, v.1, buffer, none, false⟩
            | Except.ok none =>
              ⟨"FAILURE", "Failed to extract contact info via LLM", final1, v.1, buffer,
                none, false⟩
            | Except.ok (some contact_info) =>
              if contact_info.Email = "" then
                let after :=
                  if env.snippets = "" then Except.ok contact_info
                  else extract_fallback_email env.snippets env.fallback contact_info
                match after with
                | Except.error e =>
                  ⟨"FAILURE", e, final1, v.1, buffer, some contact_info, true⟩
                | Except.ok ci1 =>
                  ⟨"SUCCESS", "Successfully extracted contact info",
                    { final1 with poe_info := some ci1 }, v.1, buffer,
                    some contact_info, true⟩
              else
                ⟨"SUCCESS", "Successfully extracted contact info",
                  { final1 with poe_info := some contact_info }, v.1, buffer,
                  some contact_info, false⟩

/-- Response of the submission endpoint (routes.py line 119). -/
structure SubmitResponse where
  task_id : String
  status : String
deriving DecidableEq

/-- `create_search_task` (routes.py lines 107-119): persist a fresh record
with status "IN_PROGRESS" and return immediately, before any pipeline work. -/
def create_search_task (task_id : String) (now : Nat) : TaskRecord × SubmitResponse :=
  (⟨task_id, "IN_PROGRESS", none, none, now, now⟩, ⟨task_id, "IN_PROGRESS"⟩)

/-- The completion block of `process_scraping_task` (routes.py lines 84-103):
the single terminal database write (status, result payload, fresh
`updated_at`), followed by the webhook push carrying status, message and
result. -/
def completeTask (task : TaskRecord) (out : PipelineOutcome) (now : Nat)
    (webhook_url : String) : TaskRecord × Option WebhookPayload :=
  ({ task with status := out.status, result_data := some out.result, updated_at := now },
   if webhook_url = "" then none else some ⟨out.status, out.message, out.result⟩)

/-- The response of `get_task_status` (routes.py lines 127-133): task id,
status, result payload and the two timestamps. -/
structure StatusResponse where
  task_id : String
  status : String
  result : Option ScrapeResult
  created_at : Nat
  updated_at : Nat
deriving DecidableEq

/-- `get_task_status` (routes.py lines 121-133) on a record that exists. -/
def get_task_status (task : TaskRecord) : StatusResponse :=
  ⟨task.task_id, task.status, task.result_data, task.created_at, task.updated_at⟩

/-- Position of a status along the lifecycle PENDING, IN_PROGRESS, terminal. -/
def statusRank (s : String) : Nat :=
  if s = "PENDING" then 0 else if s = "IN_PROGRESS" then 1 else 2

/-- `Settings.MAX_CONCURRENT_BROWSERS` default (config.py line 8). -/
def MAX_CONCURRENT_BROWSERS : Nat := 4

/-! ## Concrete inputs used by the witness theorems -/

/-- An environment whose search stage returns no results. -/
def pipelineEnvEmpty : PipelineEnv :=
  ⟨[], Except.ok "", Except.ok [], fun _ => Except.ok "", "", Except.ok none, Except.ok ""⟩

/-- A contact record whose email field is empty. -/
def ciNoEmail : ContactInfo := ⟨"555 123456", "", "", "1 Main St", "", "", "", none⟩

/-- The record `ciNoEmail` after the fallback stage fills in an email. -/
def ciMail : ContactInfo := ⟨"555 123456", "", "john@ex.com", "1 Main St", "", "", "", none⟩

/-- An environment that reaches the fallback email stage and finds nothing. -/
def envFallback : PipelineEnv :=
  ⟨["https://x.com"], Except.ok "https://x.com", Except.ok ["https://x.com/contact"],
    fun _ => Except.ok "hello", "", Except.ok (some ciNoEmail), Except.ok ""⟩

/-! ## Helper lemmas -/

theorem takeWhile_append_of_all (p : Char → Bool) (a b : List Char)
    (ha : ∀ c ∈ a, p c = true) : (a ++ b).takeWhile p = a ++ b.takeWhile p := by
  induction a with
  | nil => simp
  | cons c a ih =>
    have hc : p c = true := ha c (List.mem_cons_self c a)
    simp [List.takeWhile_cons, hc, ih fun x hx => ha x (List.mem_cons_of_mem c hx)]

theorem dropWhile_append_of_all (p : Char → Bool) (a b : List Char)
    (ha : ∀ c ∈ a, p c = true) : (a ++ b).dropWhile p = b.dropWhile p := by
  induction a with
  | nil => simp
  | cons c a ih =>
    have hc : p c = true := ha c (List.mem_cons_self c a)
    simp [List.dropWhile_cons, hc, ih fun x hx => ha x (List.mem_cons_of_mem c hx)]

theorem takeWhile_append_of_none (p : Char → Bool) (x w : List Char)
    (hw : ∀ c ∈ w, p c = false) : (x ++ w).takeWhile p = x.takeWhile p := by
  induction x with
  | nil =>
    cases w with
    | nil => rfl
    | cons c w' => simp [List.takeWhile_cons, hw c (List.mem_cons_self c w')]
  | cons c x ih =>
    by_cases hc : p c = true
    · simp [List.takeWhile_cons, hc, ih]
    · simp only [Bool.not_eq_true] at hc
      simp [List.takeWhile_cons, hc]

theorem dropWhile_append_of_none (p : Char → Bool) (x w : List Char)
    (hw : ∀ c ∈ w, p c = false) : (x ++ w).dropWhile p = x.dropWhile p ++ w := by
  induction x with
  | nil =>
    cases w with
    | nil => rfl
    | cons c w' => simp [List.dropWhile_cons, hw c (List.mem_cons_self c w')]
  | cons c x ih =>
    by_cases hc : p c = true
    · simp [List.dropWhile_cons, hc, ih]
    · simp only [Bool.not_eq_true] at hc
      simp [List.dropWhile_cons, hc]

theorem ws_not_digit (c : Char) (h : c.isWhitespace = true) : c.isDigit = false := by
  simp only [Char.isWhitespace, Bool.or_eq_true, decide_eq_true_eq] at h
  rcases h with ((h | h) | h) | h <;> subst h <;> decide

theorem filter_digit_dropWhile_ws (l : List Char) :
    (l.dropWhile Char.isWhitespace).filter Char.isDigit = l.filter Char.isDigit := by
  conv_rhs => rw [← List.takeWhile_append_dropWhile Char.isWhitespace l]
  rw [List.filter_append]
  have : (l.takeWhile Char.isWhitespace).filter Char.isDigit = [] := by
    apply List.filter_eq_nil_iff.mpr
    intro c hc
    simp [ws_not_digit c (List.mem_takeWhile_imp hc)]
  rw [this, List.nil_append]

theorem filter_digit_stripChars (l : List Char) :
    (stripChars l).filter Char.isDigit = l.filter Char.isDigit := by
  unfold stripChars
  rw [List.filter_reverse, filter_digit_dropWhile_ws, List.filter_reverse,
    List.reverse_reverse, filter_digit_dropWhile_ws]

theorem digitCount_pyStrip (v : String) : digitCount (pyStrip v) = digitCount v := by
  unfold digitCount pyStrip
  rw [filter_digit_stripChars]

/-- Claim C2, counterexample: the input " 123456" has 6 digit characters, inside
[6, 18], yet the stored value is the stripped string "123456", not the original
input kept verbatim. -/
theorem phone_not_verbatim :
    6 ≤ digitCount " 123456" ∧ digitCount " 123456" ≤ 18 ∧
      ContactInfo.validate_phone " 123456" = "123456" ∧
      ContactInfo.validate_phone " 123456" ≠ " 123456" := by
  refine ⟨by decide, by decide, by decide, by decide⟩

/-- Claim C2, amended: for every string input to the phone/fax validator, if the
count of digit characters is outside [6, 18] the stored value is the empty
string; otherwise the stored value is the input with surrounding whitespace
stripped (not the original verbatim), and every non-empty output has a digit
count in [6, 18]. -/
theorem validate_phone_spec (v : String) :
    (digitCount v < 6 ∨ 18 < digitCount v → ContactInfo.validate_phone v = "") ∧
    (6 ≤ digitCount v → digitCount v ≤ 18 →
      ContactInfo.validate_phone v = pyStrip v) ∧
    (ContactInfo.validate_phone v ≠ "" →
      ContactInfo.validate_phone v = pyStrip v ∧
      6 ≤ digitCount (ContactInfo.validate_phone v) ∧
      digitCount (ContactInfo.validate_phone v) ≤ 18) := by
  have hdc : ((stripChars v.data).filter Char.isDigit).length = digitCount v := by
    simp only [digitCount]
    rw [filter_digit_stripChars]
  unfold ContactInfo.validate_phone
  by_cases hv : v = ""
  · subst hv
    refine ⟨fun _ => rfl, ?_, ?_⟩
    · intro h6 _
      have : digitCount "" = 0 := rfl
      omega
    · simp
  · simp only [hv, if_neg, ite_false]
    by_cases hrange : ((stripChars v.data).filter Char.isDigit).length < 6 ∨
        18 < ((stripChars v.data).filter Char.isDigit).length
    · rw [if_pos hrange]
      rw [hdc] at hrange
      refine ⟨fun _ => rfl, ?_, by simp⟩
      intro h6 h18
      omega
    · rw [if_neg hrange]
      rw [hdc] at hrange
      push_neg at hrange
      refine ⟨fun h => by omega, fun _ _ => rfl, fun _ => ⟨rfl, ?_, ?_⟩⟩
      · have : digitCount (⟨stripChars v.data⟩ : String) = digitCount v := digitCount_pyStrip v
        omega
      · have : digitCount (⟨stripChars v.data⟩ : String) = digitCount v := digitCount_pyStrip v
        omega

theorem visitLoop_visited_eats (pt : String → Except String String) (ls : List String) :
    ∃ t, (visitLoop pt ls).1 ++ t = ls := by
  induction ls with
  | nil => exact ⟨[], rfl⟩
  | cons link rest ih =>
    obtain ⟨t, ht⟩ := ih
    cases hp : pt link with
    | error e => exact ⟨rest, by simp [visitLoop, hp]⟩
    | ok text =>
      cases hr : (visitLoop pt rest).2 with
      | error e => exact ⟨t, by simp [visitLoop, hp, hr, ht]⟩
      | ok tail => exact ⟨t, by simp [visitLoop, hp, hr, ht]⟩

theorem visitLoop_length_le (pt : String → Except String String) (ls : List String) :
    (visitLoop pt ls).1.length ≤ ls.length := by
  obtain ⟨t, ht⟩ := visitLoop_visited_eats pt ls
  have := congrArg List.length ht
  simp [List.length_append] at this
  omega

/-- Claim C8: when the search stage returns an empty result list, the pipeline
aborts before any later stage with terminal status FAILURE, message exactly
"No search results found", and the result keeps the sentinel official site
"Information not available" and no contact info; no link is visited, no buffer
is built, no extraction result exists and the fallback stage does not run. -/
theorem no_search_results (env : PipelineEnv) (poe_name : String)
    (h : env.search = []) :
    (process_scraping_task env poe_name).status = "FAILURE" ∧
    (process_scraping_task env poe_name).message = "No search results found" ∧
    (process_scraping_task env poe_name).result.official_site = "Information not available" ∧
    (process_scraping_task env poe_name).result.poe_info = none ∧
    (process_scraping_task env poe_name).visited = [] ∧
    (process_scraping_task env poe_name).buffer = "" ∧
    (process_scraping_task env poe_name).primary = none ∧
    (process_scraping_task env poe_name).fallbackRan = false := by
  simp [process_scraping_task, h]

/-- Claim C7: in every pipeline run at most the first 3 ranked links are
visited (the visited list is an initial segment of the first three harvested
links), and the combined text buffer passed to the contact-extraction stage
never exceeds 15000 characters. -/
theorem visit_bounds (env : PipelineEnv) (poe_name : String) :
    (process_scraping_task env poe_name).visited.length ≤ 3 ∧
    (∀ links, env.harvest = Except.ok links →
      ∃ t, (process_scraping_task env poe_name).visited ++ t = links.take 3) ∧
    (process_scraping_task env poe_name).buffer.length ≤ 15000 := by
  have hbuf : ∀ s : String, (if 15000 < s.length then strTake s 15000 else s).length ≤ 15000 := by
    intro s
    split
    · have : (strTake s 15000).length = min 15000 s.length := by
        show (s.data.take 15000).length = _
        rw [List.length_take]
        rfl
      omega
    · omega
  simp only [process_scraping_task]
  split
  · exact ⟨by simp, fun links _ => ⟨links.take 3, by simp⟩, by simp⟩
  · split
    · exact ⟨by simp, fun links _ => ⟨links.take 3, by simp⟩, by simp⟩
    · split
      · exact ⟨by simp, fun links _ => ⟨links.take 3, by simp⟩, by simp⟩
      · split
        · refine ⟨by simp, ?_, by simp⟩
          intro links hlinks
          simp_all
        · rename_i links heq
          have hlen : (visitLoop env.pageText (links.take 3)).1.length ≤ 3 := by
            have h1 := visitLoop_length_le env.pageText (links.take 3)
            have h2 : (links.take 3).length ≤ 3 := by
              rw [List.length_take]; omega
            omega
          have heat : ∀ links2, env.harvest = Except.ok links2 →
              ∃ t, (visitLoop env.pageText (links.take 3)).1 ++ t = links2.take 3 := by
            intro links2 h2
            rw [heq] at h2
            cases h2
            exact visitLoop_visited_eats env.pageText (links.take 3)
          split
          · exact ⟨by simpa using hlen, by simpa using heat, by simp⟩
          · split
            · exact ⟨by simpa using hlen, by simpa using heat, by simpa using hbuf _⟩
            · exact ⟨by simpa using hlen, by simpa using heat, by simpa using hbuf _⟩
            · split
              · split
                · exact ⟨by simpa using hlen, by simpa using heat, by simpa using hbuf _⟩
                · exact ⟨by simpa using hlen, by simpa using heat, by simpa using hbuf _⟩
              · exact ⟨by simpa using hlen, by simpa using heat, by simpa using hbuf _⟩

/-- Claim C5: the fallback email stage runs if and only if primary extraction
returned a contact record whose email field is empty (in particular never when
extraction returned nothing), and a run in which the fallback finds no email
still terminates with status SUCCESS carrying the primary extraction result. -/
theorem fallback_iff (env : PipelineEnv) (poe_name : String) :
    ((process_scraping_task env poe_name).fallbackRan = true ↔
      ∃ ci, (process_scraping_task env poe_name).primary = some ci ∧ ci.Email = "") ∧
    (∀ ci, (process_scraping_task env poe_name).primary = some ci → ci.Email = "" →
      env.snippets = "" ∨ env.fallback = Except.ok "" →
      (process_scraping_task env poe_name).status = "SUCCESS" ∧
      (process_scraping_task env poe_name).result.poe_info = some ci) := by
  have hfb : ∀ ci : ContactInfo, env.snippets = "" ∨ env.fallback = Except.ok "" →
      (if env.snippets = "" then Except.ok ci
        else extract_fallback_email env.snippets env.fallback ci) = Except.ok ci := by
    intro ci h
    split
    · rfl
    · rcases h with h | h
      · simp_all
      · simp [extract_fallback_email, h, pyStrip, stripChars]
  simp only [process_scraping_task]
  split
  · simp
  · split
    · simp
    · split
      · simp
      · split
        · simp
        · split
          · simp
          · split
            · simp
            · simp
            · split
              · rename_i ci0 hx hE
                split
                · rename_i e heq
                  refine ⟨⟨fun _ => ⟨ci0, rfl, hE⟩, fun _ => rfl⟩, ?_⟩
                  intro ci hci hE2 hno
                  obtain rfl : ci0 = ci := by injection hci
                  rw [hfb _ hno] at heq
                  cases heq
                · rename_i ci1 heq
                  refine ⟨⟨fun _ => ⟨ci0, rfl, hE⟩, fun _ => rfl⟩, ?_⟩
                  intro ci hci hE2 hno
                  obtain rfl : ci0 = ci := by injection hci
                  rw [hfb _ hno] at heq
                  injection heq with h1
                  subst h1
                  exact ⟨rfl, rfl⟩
              · rename_i ci0 hx hE
                refine ⟨?_, ?_⟩
                · refine ⟨fun h => Bool.noConfusion h, ?_⟩
                  rintro ⟨ci, hci, hE2⟩
                  obtain rfl : ci0 = ci := by injection hci
                  exact absurd hE2 hE
                · intro ci hci hE2 _
                  obtain rfl : ci0 = ci := by injection hci
                  exact absurd hE2 hE

/-! ## Email regex: correctness of the search -/

theorem isEmailShape_ne_nil {m : List Char} (h : isEmailShape m) : m ≠ [] := by
  obtain ⟨loc, d, t, hm, hloc, -, -, -, -, -⟩ := h
  subst hm
  intro hnil
  rcases List.append_eq_nil.mp hnil with ⟨h1, h2⟩
  exact List.cons_ne_nil _ _ h2

theorem matchEmailAt_sound (l m : List Char) (h : matchEmailAt l = some m) :
    isEmailShape m ∧ ∃ rest, m ++ rest = l := by
  simp only [matchEmailAt] at h
  split at h
  · cases h
  · rename_i hloc
    split at h
    · cases h
    · rename_i a r2 hdrop
      split at h
      · rename_i ha
        subst ha
        split at h
        · cases h
        · rename_i hd
          split at h
          · cases h
          · rename_i b r4 hdrop2
            split at h
            · rename_i hb
              subst hb
              split at h
              · cases h
              · rename_i ht
                injection h with hm
                subst hm
                constructor
                · refine ⟨l.takeWhile isLocalChar, r2.takeWhile isDomChar,
                    r4.takeWhile isTailChar, rfl, hloc, hd, ht, ?_, ?_, ?_⟩
                  · exact fun c hc => List.mem_takeWhile_imp hc
                  · exact fun c hc => List.mem_takeWhile_imp hc
                  · exact fun c hc => List.mem_takeWhile_imp hc
                · refine ⟨r4.dropWhile isTailChar, ?_⟩
                  have e1 : l.takeWhile isLocalChar ++ l.dropWhile isLocalChar = l :=
                    List.takeWhile_append_dropWhile isLocalChar l
                  have e2 : r2.takeWhile isDomChar ++ r2.dropWhile isDomChar = r2 :=
                    List.takeWhile_append_dropWhile isDomChar r2
                  have e3 : r4.takeWhile isTailChar ++ r4.dropWhile isTailChar = r4 :=
                    List.takeWhile_append_dropWhile isTailChar r4
                  rw [hdrop] at e1
                  rw [hdrop2] at e2
                  calc (l.takeWhile isLocalChar ++
                        '@' :: (r2.takeWhile isDomChar ++ '.' :: r4.takeWhile isTailChar)) ++
                          r4.dropWhile isTailChar
                      = l.takeWhile isLocalChar ++
                        '@' :: (r2.takeWhile isDomChar ++
                          '.' :: (r4.takeWhile isTailChar ++ r4.dropWhile isTailChar)) := by
                        simp [List.append_assoc]
                    _ = l := by rw [e3, e2, e1]
            · cases h
      · cases h

theorem matchEmailAt_complete (l m : List Char) (hs : isEmailShape m)
    (hp : ∃ rest, m ++ rest = l) : matchEmailAt l ≠ none := by
  obtain ⟨loc, d, t, hm, hloc, hd, ht, hlocall, hdall, htall⟩ := hs
  obtain ⟨rest, hrest⟩ := hp
  have hl : l = loc ++ '@' :: (d ++ '.' :: (t ++ rest)) := by
    rw [← hrest, hm]
    simp [List.append_assoc]
  have h1 : l.takeWhile isLocalChar = loc := by
    rw [hl, takeWhile_append_of_all isLocalChar loc _ hlocall]
    simp [List.takeWhile_cons, (by decide : isLocalChar '@' = false)]
  have h2 : l.dropWhile isLocalChar = '@' :: (d ++ '.' :: (t ++ rest)) := by
    rw [hl, dropWhile_append_of_all isLocalChar loc _ hlocall]
    simp [List.dropWhile_cons, (by decide : isLocalChar '@' = false)]
  have h3 : (d ++ '.' :: (t ++ rest)).takeWhile isDomChar = d := by
    rw [takeWhile_append_of_all isDomChar d _ hdall]
    simp [List.takeWhile_cons, (by decide : isDomChar '.' = false)]
  have h4 : (d ++ '.' :: (t ++ rest)).dropWhile isDomChar = '.' :: (t ++ rest) := by
    rw [dropWhile_append_of_all isDomChar d _ hdall]
    simp [List.dropWhile_cons, (by decide : isDomChar '.' = false)]
  have h5 : (t ++ rest).takeWhile isTailChar = t ++ rest.takeWhile isTailChar :=
    takeWhile_append_of_all isTailChar t _ htall
  have h6 : t ++ rest.takeWhile isTailChar ≠ [] := by
    intro hcon
    exact ht (List.append_eq_nil.mp hcon).1
  simp only [matchEmailAt, h1, h2, h3, h4, h5]
  simp [hloc, hd, h6]

theorem searchEmail_none (l : List Char) (h : searchEmail l = none) :
    ∀ pre m suf, l = pre ++ m ++ suf → ¬ isEmailShape m := by
  induction l with
  | nil =>
    intro pre m suf hdec hs
    have : m = [] := by
      rcases List.append_eq_nil.mp (List.append_eq_nil.mp hdec.symm).1 with ⟨-, h2⟩
      exact h2
    exact isEmailShape_ne_nil hs this
  | cons c rest ih =>
    intro pre m suf hdec hs
    have hm : matchEmailAt (c :: rest) = none := by
      cases hmm : matchEmailAt (c :: rest) with
      | none => rfl
      | some m0 => simp [searchEmail, hmm] at h
    have hrec : searchEmail rest = none := by
      simpa [searchEmail, hm] using h
    cases pre with
    | nil =>
      simp only [List.nil_append] at hdec
      exact matchEmailAt_complete (c :: rest) m hs ⟨suf, hdec.symm⟩ hm
    | cons c2 pre2 =>
      have hdec2 : rest = pre2 ++ m ++ suf := by
        have := hdec
        simp only [List.cons_append] at this
        exact (List.cons_eq_cons.mp this).2
      exact ih hrec pre2 m suf hdec2 hs

theorem searchEmail_some (l m : List Char) (h : searchEmail l = some m) :
    isEmailShape m ∧ ∃ pre suf, l = pre ++ m ++ suf ∧
      ∀ pre' m' suf', l = pre' ++ m' ++ suf' → isEmailShape m' →
        pre.length ≤ pre'.length := by
  induction l with
  | nil => cases h
  | cons c rest ih =>
    cases hmm : matchEmailAt (c :: rest) with
    | some m0 =>
      have hm : m0 = m := by
        have := h
        simp [searchEmail, hmm] at this
        exact this
      subst hm
      obtain ⟨hs, rest0, hrest0⟩ := matchEmailAt_sound _ _ hmm
      refine ⟨hs, [], rest0, by simp [hrest0.symm], ?_⟩
      intro pre' m' suf' _ _
      simp
    | none =>
      have hrec : searchEmail rest = some m := by
        simpa [searchEmail, hmm] using h
      obtain ⟨hs, pre, suf, hdec, hmin⟩ := ih hrec
      refine ⟨hs, c :: pre, suf, by simp [hdec], ?_⟩
      intro pre' m' suf' hdec' hs'
      cases pre' with
      | nil =>
        simp only [List.nil_append] at hdec'
        exact absurd hmm (matchEmailAt_complete (c :: rest) m' hs' ⟨suf', hdec'.symm⟩)
      | cons c2 pre2 =>
        have hdec2 : rest = pre2 ++ m' ++ suf' := by
          have := hdec'
          simp only [List.cons_append] at this
          exact (List.cons_eq_cons.mp this).2
        have := hmin pre2 m' suf' hdec2 hs'
        simp only [List.length_cons]
        omega

theorem ws_class_false (c : Char) (h : c.isWhitespace = true) :
    isLocalChar c = false ∧ isDomChar c = false ∧ isTailChar c = false ∧
      c ≠ '@' ∧ c ≠ '.' := by
  simp only [Char.isWhitespace, Bool.or_eq_true, decide_eq_true_eq] at h
  rcases h with ((h | h) | h) | h <;> subst h <;>
    exact ⟨by decide, by decide, by decide, by decide, by decide⟩

theorem matchEmailAt_pad (x w : List Char) (hw : ∀ c ∈ w, c.isWhitespace = true) :
    matchEmailAt (x ++ w) = matchEmailAt x := by
  have hwl : ∀ c ∈ w, isLocalChar c = false := fun c hc => (ws_class_false c (hw c hc)).1
  have hwd : ∀ c ∈ w, isDomChar c = false := fun c hc => (ws_class_false c (hw c hc)).2.1
  have hwt : ∀ c ∈ w, isTailChar c = false :=
    fun c hc => (ws_class_false c (hw c hc)).2.2.1
  simp only [matchEmailAt]
  rw [takeWhile_append_of_none _ _ _ hwl, dropWhile_append_of_none _ _ _ hwl]
  by_cases hloc : x.takeWhile isLocalChar = []
  · simp [hloc]
  · rw [if_neg hloc, if_neg hloc]
    cases hx : x.dropWhile isLocalChar with
    | nil =>
      simp only [List.nil_append]
      cases w with
      | nil => rfl
      | cons cw w' =>
        have hne : cw ≠ '@' :=
          (ws_class_false cw (hw cw (List.mem_cons_self _ _))).2.2.2.1
        simp [hne]
    | cons a r2 =>
      simp only [List.cons_append]
      by_cases ha : a = '@'
      · subst ha
        simp only [if_pos rfl]
        rw [takeWhile_append_of_none _ _ _ hwd, dropWhile_append_of_none _ _ _ hwd]
        by_cases hd : r2.takeWhile isDomChar = []
        · simp [hd]
        · rw [if_neg hd, if_neg hd]
          cases hx2 : r2.dropWhile isDomChar with
          | nil =>
            simp only [List.nil_append]
            cases w with
            | nil => rfl
            | cons cw w' =>
              have hne : cw ≠ '.' :=
                (ws_class_false cw (hw cw (List.mem_cons_self _ _))).2.2.2.2
              simp [hne]
          | cons b r4 =>
            simp only [List.cons_append]
            by_cases hb : b = '.'
            · subst hb
              simp only [if_pos rfl]
              rw [takeWhile_append_of_none _ _ _ hwt]
            · simp [hb]
      · simp [ha]

theorem searchEmail_ws_head (c : Char) (l : List Char) (hc : c.isWhitespace = true) :
    searchEmail (c :: l) = searchEmail l := by
  have hm : matchEmailAt (c :: l) = none := by
    simp only [matchEmailAt]
    have : isLocalChar c = false := (ws_class_false c hc).1
    simp [List.takeWhile_cons, this]
  simp [searchEmail, hm]

theorem searchEmail_all_ws (w : List Char) (hw : ∀ c ∈ w, c.isWhitespace = true) :
    searchEmail w = none := by
  induction w with
  | nil => rfl
  | cons c w' ih =>
    rw [searchEmail_ws_head c w' (hw c (List.mem_cons_self _ _))]
    exact ih fun x hx => hw x (List.mem_cons_of_mem c hx)

theorem searchEmail_append_ws (x w : List Char) (hw : ∀ c ∈ w, c.isWhitespace = true) :
    searchEmail (x ++ w) = searchEmail x := by
  induction x with
  | nil => simpa using searchEmail_all_ws w hw
  | cons c x' ih =>
    have hpad := matchEmailAt_pad (c :: x') w hw
    simp only [List.cons_append] at hpad ⊢
    cases hm : matchEmailAt (c :: x') with
    | some m0 =>
      rw [hm] at hpad
      simp [searchEmail, hpad, hm]
    | none =>
      rw [hm] at hpad
      simp only [searchEmail, hpad, hm]
      exact ih

theorem searchEmail_ws_append (w l : List Char) (hw : ∀ c ∈ w, c.isWhitespace = true) :
    searchEmail (w ++ l) = searchEmail l := by
  induction w with
  | nil => rfl
  | cons c w' ih =>
    rw [List.cons_append, searchEmail_ws_head c (w' ++ l) (hw c (List.mem_cons_self _ _))]
    exact ih fun x hx => hw x (List.mem_cons_of_mem c hx)

theorem searchEmail_stripChars (l : List Char) :
    searchEmail (stripChars l) = searchEmail l := by
  have hsplit : l = l.takeWhile Char.isWhitespace ++ l.dropWhile Char.isWhitespace :=
    (List.takeWhile_append_dropWhile Char.isWhitespace l).symm
  set a := l.dropWhile Char.isWhitespace with ha
  have hsplit2 : a = stripChars l ++ (a.reverse.takeWhile Char.isWhitespace).reverse := by
    unfold stripChars
    rw [← ha]
    conv_lhs => rw [← List.reverse_reverse a,
      ← List.takeWhile_append_dropWhile Char.isWhitespace a.reverse]
    rw [List.reverse_append]
  have hws1 : ∀ c ∈ l.takeWhile Char.isWhitespace, c.isWhitespace = true :=
    fun c hc => List.mem_takeWhile_imp hc
  have hws2 : ∀ c ∈ (a.reverse.takeWhile Char.isWhitespace).reverse,
      c.isWhitespace = true := by
    intro c hc
    exact List.mem_takeWhile_imp (List.mem_reverse.mp hc)
  calc searchEmail (stripChars l)
      = searchEmail (stripChars l ++ (a.reverse.takeWhile Char.isWhitespace).reverse) :=
        (searchEmail_append_ws _ _ hws2).symm
    _ = searchEmail a := by rw [← hsplit2]
    _ = searchEmail (l.takeWhile Char.isWhitespace ++ a) :=
        (searchEmail_ws_append _ _ hws1).symm
    _ = searchEmail l := by rw [← hsplit]

/-- Claim C3: for every string input to the email validator, if no substring of
the input matches the email regex the validator stores the empty string, and if
some substring matches, the validator stores the lowercased match at the
leftmost possible position — a single address, never an aggregation. -/
theorem validate_email_correct (v : String) :
    ((∀ pre m suf, v.data = pre ++ m ++ suf → ¬ isEmailShape m) →
      ContactInfo.validate_email v = "") ∧
    (∀ pre m suf, v.data = pre ++ m ++ suf → isEmailShape m →
      ∃ pre0 m0 suf0, v.data = pre0 ++ m0 ++ suf0 ∧ isEmailShape m0 ∧
        ContactInfo.validate_email v = ⟨m0.map Char.toLower⟩ ∧
        ∀ pre' m' suf', v.data = pre' ++ m' ++ suf' → isEmailShape m' →
          pre0.length ≤ pre'.length) := by
  unfold ContactInfo.validate_email
  by_cases hv : v = ""
  · subst hv
    constructor
    · intro _
      rfl
    · intro pre m suf hdec hs
      exfalso
      have hnil : ("" : String).data = [] := rfl
      rw [hnil] at hdec
      have : m = [] := (List.append_eq_nil.mp (List.append_eq_nil.mp hdec.symm).1).2
      exact isEmailShape_ne_nil hs this
  · rw [if_neg hv, searchEmail_stripChars v.data]
    cases hse : searchEmail v.data with
    | none =>
      constructor
      · intro _
        simp [hse]
      · intro pre m suf hdec hs
        exact absurd hs (searchEmail_none v.data hse pre m suf hdec)
    | some m0 =>
      obtain ⟨hs0, pre0, suf0, hdec0, hmin0⟩ := searchEmail_some v.data m0 hse
      constructor
      · intro hnone
        exact absurd hs0 (hnone pre0 m0 suf0 hdec0)
      · intro pre m suf hdec hs
        exact ⟨pre0, m0, suf0, hdec0, hs0, by simp [hse], hmin0⟩

theorem validate_email_correct_witness :
    ∃ pre0 m0 suf0, ("x a@b.cd y" : String).data = pre0 ++ m0 ++ suf0 ∧ isEmailShape m0 ∧
      ContactInfo.validate_email "x a@b.cd y" = ⟨m0.map Char.toLower⟩ ∧
      ∀ pre' m' suf', ("x a@b.cd y" : String).data = pre' ++ m' ++ suf' → isEmailShape m' →
        pre0.length ≤ pre'.length :=
  (validate_email_correct "x a@b.cd y").2 ("x " : String).data ("a@b.cd" : String).data
    (" y" : String).data (by decide)
    ⟨['a'], ['b'], ['c', 'd'], by decide, by decide, by decide, by decide,
      by decide, by decide, by decide⟩

theorem validate_email_shape (v : String) :
    ContactInfo.validate_email v = "" ∨
      ∃ m, isEmailShape m ∧ ContactInfo.validate_email v = ⟨m.map Char.toLower⟩ := by
  unfold ContactInfo.validate_email
  by_cases hv : v = ""
  · subst hv
    left
    rfl
  · rw [if_neg hv]
    cases hse : searchEmail (stripChars v.data) with
    | none =>
      left
      simp [hse]
    | some m0 =>
      right
      exact ⟨m0, (searchEmail_some (stripChars v.data) m0 hse).1, by simp [hse]⟩

/-- Claim C6: whenever the fallback email stage returns a contact record, all
fields other than the email (phone, fax, address, city, state, zip, department
contacts) are unchanged from the primary extraction, and the email is either
also unchanged or is the LLM reply re-validated through the email normalization
rule at assignment time, hence empty or a lowercased email-shaped string. -/
theorem fallback_email_frame (sn : String) (fb : Except String String)
    (cur cur' : ContactInfo) (h : extract_fallback_email sn fb cur = Except.ok cur') :
    cur'.Phone = cur.Phone ∧ cur'.Fax = cur.Fax ∧ cur'.Address = cur.Address ∧
    cur'.City = cur.City ∧ cur'.State = cur.State ∧ cur'.ZipCode = cur.ZipCode ∧
    cur'.DeptContacts = cur.DeptContacts ∧
    (cur'.Email = cur.Email ∨
      ∃ em, fb = Except.ok em ∧ pyStrip em ≠ "" ∧
        cur'.Email = ContactInfo.validate_email (pyStrip em) ∧
        (cur'.Email = "" ∨ ∃ m, isEmailShape m ∧ cur'.Email = ⟨m.map Char.toLower⟩)) := by
  unfold extract_fallback_email at h
  split at h
  · injection h with h1
    subst h1
    exact ⟨rfl, rfl, rfl, rfl, rfl, rfl, rfl, Or.inl rfl⟩
  · split at h
    · cases h
    · rename_i em
      simp only [] at h
      split at h
      · injection h with h1
        subst h1
        exact ⟨rfl, rfl, rfl, rfl, rfl, rfl, rfl, Or.inl rfl⟩
      · rename_i hne
        injection h with h1
        subst h1
        refine ⟨rfl, rfl, rfl, rfl, rfl, rfl, rfl, Or.inr ⟨em, rfl, hne, rfl, ?_⟩⟩
        simpa using validate_email_shape (pyStrip em)

theorem orderedInsert_filter_eq_key {α : Type} (key : α → Nat) (k : Nat) (u : α)
    (s : List α) (hu : key u = k) :
    (List.orderedInsert (fun a b => key a ≤ key b) u s).filter (fun x => key x == k) =
      u :: s.filter (fun x => key x == k) := by
  induction s with
  | nil => simp [List.orderedInsert, hu]
  | cons y ys ih =>
    by_cases hr : key u ≤ key y
    · simp only [List.orderedInsert, if_pos hr]
      simp [List.filter_cons, hu]
    · simp only [List.orderedInsert, if_neg hr]
      have hyk : key y ≠ k := by omega
      simp [List.filter_cons, hyk, ih]

theorem orderedInsert_filter_ne_key {α : Type} (key : α → Nat) (k : Nat) (u : α)
    (s : List α) (hu : key u ≠ k) :
    (List.orderedInsert (fun a b => key a ≤ key b) u s).filter (fun x => key x == k) =
      s.filter (fun x => key x == k) := by
  induction s with
  | nil => simp [List.orderedInsert, hu]
  | cons y ys ih =>
    by_cases hr : key u ≤ key y
    · simp only [List.orderedInsert, if_pos hr]
      simp [List.filter_cons, hu]
    · simp only [List.orderedInsert, if_neg hr]
      simp [List.filter_cons, ih]

theorem insertionSort_filter_key {α : Type} (key : α → Nat) (k : Nat) (l : List α) :
    (List.insertionSort (fun a b => key a ≤ key b) l).filter (fun x => key x == k) =
      l.filter (fun x => key x == k) := by
  induction l with
  | nil => rfl
  | cons u l ih =>
    show (List.orderedInsert _ u (List.insertionSort _ l)).filter _ = _
    by_cases hu : key u = k
    · rw [orderedInsert_filter_eq_key key k u _ hu, ih]
      simp [List.filter_cons, hu]
    · rw [orderedInsert_filter_ne_key key k u _ hu, ih]
      simp [List.filter_cons, hu]

/-- Claim C4: for every homepage and candidate list, the link ranker orders
candidates ascending by the keyword-tier score (contact 1, about 2, team/staff
3, location/office 4, the homepage itself 5, anything else 6), as a permutation
of the input that keeps the original relative order inside every tier (stable
ties), and the concrete inputs of the claim rank as [contact, team, homepage]. -/
theorem link_ranking :
    (∀ homepage_url links,
      List.Sorted (fun a b => score_link homepage_url a ≤ score_link homepage_url b)
        (rankLinks homepage_url links) ∧
      List.Perm (rankLinks homepage_url links) links ∧
      ∀ k, (rankLinks homepage_url links).filter
            (fun u => score_link homepage_url u == k) =
          links.filter (fun u => score_link homepage_url u == k)) ∧
    rankLinks "https://x.com/"
        ["https://x.com/team", "https://x.com/contact", "https://x.com/"] =
      ["https://x.com/contact", "https://x.com/team", "https://x.com/"] := by
  constructor
  · intro homepage_url links
    haveI h1 : IsTotal String
        (fun a b => score_link homepage_url a ≤ score_link homepage_url b) :=
      ⟨fun a b => Nat.le_total _ _⟩
    haveI h2 : IsTrans String
        (fun a b => score_link homepage_url a ≤ score_link homepage_url b) :=
      ⟨fun a b c hab hbc => Nat.le_trans hab hbc⟩
    exact ⟨List.sorted_insertionSort _ _, List.perm_insertionSort _ _,
      fun k => insertionSort_filter_key (score_link homepage_url) k links⟩
  · decide

theorem process_status_terminal (env : PipelineEnv) (poe_name : String) :
    (process_scraping_task env poe_name).status = "SUCCESS" ∨
    (process_scraping_task env poe_name).status = "FAILURE" := by
  simp only [process_scraping_task]
  repeat' split
  all_goals first
  | exact Or.inl rfl
  | exact Or.inr rfl

/-- Claim C9, counterexample: the record persisted at submission is created
with status "IN_PROGRESS", not in state PENDING as the claim states. -/
theorem task_created_in_progress :
    (create_search_task "t1" 0).1.status = "IN_PROGRESS" ∧
    (create_search_task "t1" 0).1.status ≠ "PENDING" := by
  exact ⟨rfl, by decide⟩

/-- Claim C9, amended: submission creates the task record already in state
IN_PROGRESS (PENDING exists only as the schema default) before any pipeline
work, the submission response is the task id with status "IN_PROGRESS", and the
persisted status moves monotonically IN_PROGRESS → {SUCCESS, FAILURE} through
the single terminal write. -/
theorem task_lifecycle (task_id : String) (now now2 : Nat) (env : PipelineEnv)
    (poe_name url : String) :
    (create_search_task task_id now).1.status = "IN_PROGRESS" ∧
    (create_search_task task_id now).2 = ⟨task_id, "IN_PROGRESS"⟩ ∧
    ((process_scraping_task env poe_name).status = "SUCCESS" ∨
      (process_scraping_task env poe_name).status = "FAILURE") ∧
    statusRank "PENDING" < statusRank "IN_PROGRESS" ∧
    statusRank (create_search_task task_id now).1.status <
      statusRank (completeTask (create_search_task task_id now).1
        (process_scraping_task env poe_name) now2 url).1.status := by
  refine ⟨rfl, rfl, process_status_terminal env poe_name, by decide, ?_⟩
  have hcr : (create_search_task task_id now).1.status = "IN_PROGRESS" := rfl
  have hsave : (completeTask (create_search_task task_id now).1
      (process_scraping_task env poe_name) now2 url).1.status =
      (process_scraping_task env poe_name).status := rfl
  rw [hcr, hsave]
  rcases process_status_terminal env poe_name with h | h <;> rw [h] <;> decide

/-- Claim C1, counterexample: a run failing with "No search results found"
produces a terminal write that leaves the persisted message field untouched
(still `none`), so the failure message is not stored and cannot be returned by
the task-status query, whose response carries no message field at all. -/
theorem terminal_write_drops_message :
    (process_scraping_task pipelineEnvEmpty "acme").message = "No search results found" ∧
    (process_scraping_task pipelineEnvEmpty "acme").status = "FAILURE" ∧
    (completeTask (create_search_task "t1" 0).1
        (process_scraping_task pipelineEnvEmpty "acme") 5
        "http://localhost:8000/webhook-mock").1.message ≠
      some "No search results found" ∧
    (completeTask (create_search_task "t1" 0).1
        (process_scraping_task pipelineEnvEmpty "acme") 5
        "http://localhost:8000/webhook-mock").1.message = none :=
  ⟨rfl, rfl, by decide, rfl⟩

/-- Claim C1, amended: the terminal update writes the task's status, result
and a fresh updated-at timestamp exactly once and leaves the message and
created-at fields unchanged; the status query then reports exactly those
persisted fields (it exposes no message), while the failure or success message
is delivered through the webhook payload. -/
theorem terminal_write_fields (task : TaskRecord) (out : PipelineOutcome) (now : Nat)
    (url : String) :
    (completeTask task out now url).1.status = out.status ∧
    (completeTask task out now url).1.result_data = some out.result ∧
    (completeTask task out now url).1.updated_at = now ∧
    (completeTask task out now url).1.message = task.message ∧
    (completeTask task out now url).1.created_at = task.created_at ∧
    (completeTask task out now url).1.task_id = task.task_id ∧
    get_task_status (completeTask task out now url).1 =
      ⟨task.task_id, out.status, some out.result, task.created_at, now⟩ ∧
    (url ≠ "" → (completeTask task out now url).2 =
      some ⟨out.status, out.message, out.result⟩) := by
  refine ⟨rfl, rfl, rfl, rfl, rfl, rfl, rfl, ?_⟩
  intro hurl
  simp [completeTask, hurl]

theorem terminal_write_fields_witness :
    ("http://localhost:8000/webhook-mock" : String) ≠ "" ∧
    (completeTask (create_search_task "t1" 0).1
        (process_scraping_task pipelineEnvEmpty "acme") 5
        "http://localhost:8000/webhook-mock").2 =
      some ⟨(process_scraping_task pipelineEnvEmpty "acme").status,
        (process_scraping_task pipelineEnvEmpty "acme").message,
        (process_scraping_task pipelineEnvEmpty "acme").result⟩ :=
  ⟨by decide, (terminal_write_fields (create_search_task "t1" 0).1
    (process_scraping_task pipelineEnvEmpty "acme") 5
    "http://localhost:8000/webhook-mock").2.2.2.2.2.2.2 (by decide)⟩

theorem no_search_results_witness :
    pipelineEnvEmpty.search = [] ∧
    (process_scraping_task pipelineEnvEmpty "acme").status = "FAILURE" ∧
    (process_scraping_task pipelineEnvEmpty "acme").message = "No search results found" ∧
    (process_scraping_task pipelineEnvEmpty "acme").result.official_site =
      "Information not available" :=
  ⟨rfl, (no_search_results pipelineEnvEmpty "acme" rfl).1,
    (no_search_results pipelineEnvEmpty "acme" rfl).2.1,
    (no_search_results pipelineEnvEmpty "acme" rfl).2.2.1⟩

theorem fallback_iff_witness :
    (process_scraping_task envFallback "acme").primary = some ciNoEmail ∧
    ciNoEmail.Email = "" ∧
    (envFallback.snippets = "" ∨ envFallback.fallback = Except.ok "") ∧
    (process_scraping_task envFallback "acme").status = "SUCCESS" ∧
    (process_scraping_task envFallback "acme").result.poe_info = some ciNoEmail :=
  ⟨by decide, rfl, Or.inl rfl,
    ((fallback_iff envFallback "acme").2 ciNoEmail (by decide) rfl (Or.inl rfl)).1,
    ((fallback_iff envFallback "acme").2 ciNoEmail (by decide) rfl (Or.inl rfl)).2⟩

theorem visit_bounds_witness :
    envFallback.harvest = Except.ok ["https://x.com/contact"] ∧
    (∃ t, (process_scraping_task envFallback "acme").visited ++ t =
      (["https://x.com/contact"] : List String).take 3) ∧
    (process_scraping_task envFallback "acme").visited.length ≤ 3 ∧
    (process_scraping_task envFallback "acme").buffer.length ≤ 15000 :=
  ⟨rfl, (visit_bounds envFallback "acme").2.1 ["https://x.com/contact"] rfl,
    (visit_bounds envFallback "acme").1, (visit_bounds envFallback "acme").2.2⟩

theorem validate_phone_spec_witness :
    6 ≤ digitCount "+1 (555) 123-4567" ∧ digitCount "+1 (555) 123-4567" ≤ 18 ∧
    ContactInfo.validate_phone "+1 (555) 123-4567" = pyStrip "+1 (555) 123-4567" :=
  ⟨by decide, by decide,
    (validate_phone_spec "+1 (555) 123-4567").2.1 (by decide) (by decide)⟩

theorem fallback_email_frame_witness :
    extract_fallback_email "snippet text" (Except.ok " John@Ex.com ") ciNoEmail =
      Except.ok ciMail ∧
    ciMail.Phone = ciNoEmail.Phone ∧ ciMail.Address = ciNoEmail.Address ∧
    ciMail.DeptContacts = ciNoEmail.DeptContacts :=
  ⟨rfl,
    (fallback_email_frame "snippet text" (Except.ok " John@Ex.com ") ciNoEmail ciMail
      rfl).1,
    (fallback_email_frame "snippet text" (Except.ok " John@Ex.com ") ciNoEmail ciMail
      rfl).2.2.1,
    (fallback_email_frame "snippet text" (Except.ok " John@Ex.com ") ciNoEmail ciMail
      rfl).2.2.2.2.2.2.1⟩
